import Mathlib

/-!
Shallow embedding of the masking data pipeline and training-loop control
logic of `mockingjay/solver.py` (class `Trainer`).

Modelling conventions:
* Tensors are nested lists; a spectrogram frame is a `List R` over an abstract
  scalar type `R` (floats are modelled as exact scalars; witnesses instantiate
  `R := ℤ`), an utterance a `List (List R)`, a batch a `List` of utterances.
  The positional-encoding table, which applies `sin`, `cos` and a real power,
  lives in `ℝ`; the configured `mask_proportion` is an exact rational.
* `int(a * b)` on the nonnegative float products appearing in the source
  (`int(L * p)`, `int(k * 0.8)`, `int(k * 0.1)`) is modelled as `Nat.floor`
  of the exact product.
* The random source is an explicit parameter: `random.sample(range(L), k)`
  is the first `k` entries of a supplied permutation of `range L`, and each
  `random.randint(1, L-1)` draw is a supplied value.
* In-place numpy mutation becomes pure `List.set` folds; Python negative
  indexing wraps from the end of the array.
-/

namespace Mockingjay

/-- Chunking worker: `fuel` bounds the recursion depth (the list length
always suffices), keeping the definition structurally recursive and hence
evaluable inside the kernel. -/
def chunkListAux (n : Nat) : Nat → List α → List (List α)
  | _, [] => []
  | 0, _ :: _ => []
  | fuel + 1, a :: t => (a :: t).take n :: chunkListAux n fuel ((a :: t).drop n)

/-- Split a list into consecutive chunks of size `n` (the row-major
reinterpretation performed by `tensor.view`). -/
def chunkList (n : Nat) (l : List α) : List (List α) :=
  if n = 0 then [] else chunkListAux n l.length l

/-- Source `Trainer.down_sample_frames`: drop the remainder `raw_time % dr` of raw
frames, then reinterpret each utterance row-major as
`(raw_time // dr)` steps of width `feature_dim * dr`. -/
def down_sample_frames (dr : Nat) (spec : List (List (List α))) : List (List (List α)) :=
  let T := (spec.headD []).length
  let D := ((spec.headD []).headD []).length
  let left_over := T % dr
  let spec1 := if left_over ≠ 0 then spec.map (fun u => u.take (T - left_over)) else spec
  spec1.map (fun u => chunkList (D * dr) u.flatten)

-- Positional Encoder ---------------------------------------------------------
/-- The inner `cal_angle` of `Trainer.position_encoding`:
`position / np.power(10000, 2 * (hid_idx // 2) / hidden_size)`. -/
noncomputable def cal_angle (hidden_size position hid_idx : Nat) : ℝ :=
  (position : ℝ) /
    (10000 : ℝ) ^ (((2 * (hid_idx / 2) : Nat) : ℝ) / (hidden_size : ℝ))

/-- The inner `get_posi_angle_vec` of `Trainer.position_encoding`. -/
noncomputable def get_posi_angle_vec (hidden_size position : Nat) : List ℝ :=
  (List.range hidden_size).map (fun hid_j => cal_angle hidden_size position hid_j)

/-- Source `Trainer.position_encoding`: the sinusoid table — `sin` applied to even
columns, `cos` to odd columns — with the rows from `padding_idx` on replaced
by zeros when a padding index is supplied. -/
noncomputable def position_encoding (hidden_size seq_len : Nat) (padding_idx : Option Nat) :
    List (List ℝ) :=
  let sinusoid_table :=
    (List.range seq_len).map (fun pos_i => get_posi_angle_vec hidden_size pos_i)
  let sinusoid_table2 := sinusoid_table.map (fun row =>
    row.enum.map (fun jv => if jv.1 % 2 = 0 then Real.sin jv.2 else Real.cos jv.2))
  match padding_idx with
  | none => sinusoid_table2
  | some pidx =>
    sinusoid_table2.enum.map
      (fun ir => if pidx ≤ ir.1 then ir.2.map (fun _ => (0 : ℝ)) else ir.2)

section Masking

variable {R : Type} [AddCommMonoid R] [One R] [DecidableEq R]

/-- Valid length of a downsampled utterance, as the source computes it:
`np.sum(np.sum(spec_stacked, axis=-1) != 0, axis=-1)` — the number of time
steps whose feature values sum to a nonzero total. -/
def spec_len (u : List (List R)) : Nat :=
  ((u.map (fun frame => frame.sum)).map (fun s => if s ≠ 0 then 1 else 0)).sum

/-- Sampling `random.sample(range(L), int(L * p))`, the random draw supplied as a
permutation `perm` of `range L`: the sample is its first `int(L * p)`
entries. -/
def chosen_index (p : ℚ) (L : Nat) (perm : List Nat) : List Nat :=
  perm.take (Nat.floor ((L : ℚ) * p))

/-- The count `int(len(chosen_index) * 0.8)`. -/
def sub_mask_proportion (k : Nat) : Nat := Nat.floor ((k : ℚ) * (0.8 : ℚ))

/-- The count `int(len(chosen_index) * 0.1)`. -/
def sub_rand_proportion (k : Nat) : Nat := Nat.floor ((k : ℚ) * (0.1 : ℚ))

/-- The slice `masked_index = chosen_index[:sub_mask_proportion]`. -/
def masked_index (chosen : List Nat) : List Nat :=
  chosen.take (sub_mask_proportion chosen.length)

/-- The slice `random_index = chosen_index[sub_mask_proportion:sub_rand_proportion]`,
a Python slice: it is empty whenever the upper bound does not exceed the
lower one. -/
def random_index (chosen : List Nat) : List Nat :=
  (chosen.drop (sub_mask_proportion chosen.length)).take
    (sub_rand_proportion chosen.length - sub_mask_proportion chosen.length)

/-- Python array indexing: a negative index counts from the end. -/
def py_idx (n : Nat) (i : ℤ) : Nat := if i < 0 then ((n : ℤ) + i).toNat else i.toNat

/-- The loop `for r in random_index: x[r] = x[r - random.randint(1, L - 1)]`, the
`randint` draws supplied by `off`. -/
def apply_swaps (off : Nat → Nat) (ridx : List Nat) (x : List (List R)) :
    List (List R) :=
  ridx.enum.foldl
    (fun a jr =>
      a.set jr.2 (a.getD (py_idx a.length ((jr.2 : ℤ) - (off jr.1 : ℤ))) [])) x

/-- Row assignment `x[idxs] = c` in numpy broadcast form: each selected row
is overwritten by a constant row of its own width. -/
def set_rows_const (c : R) (idxs : List Nat) (x : List (List R)) :
    List (List R) :=
  idxs.foldl (fun a i => a.set i (List.replicate (a.getD i []).length c)) x

/-- One iteration of the per-utterance loop in `Trainer.process_MAM_data`:
returns `(x, pos_enc_row, mask_label_row, attn_mask_row)` for one
utterance. -/
noncomputable def process_utter (p : ℚ) (label_dim hidden_size : Nat)
    (perm : List Nat) (off : Nat → Nat) (frames : List (List R)) :
    List (List R) × List (List ℝ) × List (List R) × List R :=
  let L := spec_len frames
  let chosen := chosen_index p L perm
  let x1 := apply_swaps off (random_index chosen) frames
  let x := set_rows_const 0 (masked_index chosen) x1
  let pe := position_encoding hidden_size x.length (some L)
  let lbl := set_rows_const 1 chosen
    (List.replicate L (List.replicate label_dim (0 : R)))
  let am := List.replicate L (1 : R)
  (x, pe, lbl, am)

/-- Output record of `Trainer.process_MAM_data` (tensor conversion and
device transfer are value-preserving, modelled as the identity). -/
structure MAMOut (R : Type) where
  spec_masked : List (List (List R))
  pos_enc : List (List (List ℝ))
  mask_label : List (List (List R))
  attn_mask : List (List R)
  spec_stacked : List (List (List R))

/-- Source `Trainer.process_MAM_data`: squeeze the bucketing dimension, downsample,
process each utterance, and collect the per-utterance results into the five
returned batch tensors. -/
noncomputable def process_MAM_data (dr : Nat) (p : ℚ)
    (sample_dim hidden_size : Nat) (perms : Nat → List Nat)
    (offs : Nat → Nat → Nat) (spec : List (List (List (List R)))) : MAMOut R :=
  let spec0 := spec.headD []
  let spec_stacked := down_sample_frames dr spec0
  let outs := spec_stacked.enum.map
    (fun iu => process_utter p (sample_dim * dr) hidden_size
      (perms iu.1) (offs iu.1) iu.2)
  { spec_masked := outs.map (fun o => o.1)
    pos_enc := outs.map (fun o => o.2.1)
    mask_label := outs.map (fun o => o.2.2.1)
    attn_mask := outs.map (fun o => o.2.2.2)
    spec_stacked := spec_stacked }

/-- All time-step indices read or written by the zeroing and frame-swapping
operations of the Masking Engine on an utterance whose physical row count is
`seq_len`: rows zeroed, rows written by swaps, and rows read as swap sources
(after Python negative-index wraparound). -/
def touched_indices (seq_len : Nat) (chosen : List Nat) (off : Nat → Nat) :
    List Nat :=
  masked_index chosen ++ random_index chosen ++
    (random_index chosen).enum.map
      (fun jr => py_idx seq_len ((jr.2 : ℤ) - (off jr.1 : ℤ)))

end Masking

-- Training Loop Controller ---------------------------------------------------
/-- The collaborators of `Trainer.exec`, opaque to the loop: model and data
(through the per-batch loss), optimizer, gradient clipping, and warmup
schedule.  `P` is the parameter state, `G` the gradient state. -/
structure TrainCfg (P G : Type) where
  total_epoch : Nat
  num_batches : Nat
  gradient_accumulation_steps : Nat
  apex : Bool
  learning_rate : ℚ
  loss_of : Nat → Nat → ℚ
  backward : G → ℚ → G
  clip_grads : G → G
  norm_is_nan : G → Bool
  opt_step : P → G → P
  zero_grad : G
  warmup_lr : Nat → ℚ

/-- The state mutated by `Trainer.exec`: the optimizer-update counter, model
parameters, accumulated gradients, current learning rate, the warnings sent
to the verbose channel, and the `(global_step, loss)` scalars logged. -/
structure TrainState (P G : Type) where
  global_step : Nat
  params : P
  grads : G
  lr : ℚ
  warns : Nat
  logs : List (Nat × ℚ)

/-- One body execution of the inner batch loop of `Trainer.exec` at batch
index `step` (within the epoch) of epoch `epoch`: scale the loss when
accumulating, backpropagate, and — only when
`step % gradient_accumulation_steps == 0` — override the learning rate on
the apex path, clip gradients, take the optimizer step unless the gradient
norm is NaN (warning instead), clear gradients, log, and advance
`global_step`. -/
def run_batch (cfg : TrainCfg P G) (epoch step : Nat) (st : TrainState P G) :
    TrainState P G :=
  let loss0 := cfg.loss_of epoch step
  let loss := if 1 < cfg.gradient_accumulation_steps
    then loss0 / (cfg.gradient_accumulation_steps : ℚ) else loss0
  let g := cfg.backward st.grads loss
  if step % cfg.gradient_accumulation_steps = 0 then
    let lr1 := if cfg.apex
      then cfg.learning_rate * cfg.warmup_lr st.global_step else st.lr
    let nan := cfg.norm_is_nan g
    let g1 := cfg.clip_grads g
    { global_step := st.global_step + 1
      params := if nan then st.params else cfg.opt_step st.params g1
      grads := cfg.zero_grad
      lr := lr1
      warns := if nan then st.warns + 1 else st.warns
      logs := st.logs ++ [(st.global_step, loss)] }
  else
    { st with grads := g }

/-- The inner loop of `Trainer.exec` over the batches of one epoch;
`enumerate` restarts `step` at `0` every epoch. -/
def run_epoch (cfg : TrainCfg P G) (epoch : Nat) (st : TrainState P G) :
    TrainState P G :=
  (List.range cfg.num_batches).foldl
    (fun s step => run_batch cfg epoch step s) st

/-- Source `Trainer.exec`: initialize `global_step = 1` and run every epoch. -/
def exec_train (cfg : TrainCfg P G) (p0 : P) : TrainState P G :=
  (List.range cfg.total_epoch).foldl (fun s ep => run_epoch cfg ep s)
    { global_step := 1
      params := p0
      grads := cfg.zero_grad
      lr := cfg.learning_rate
      warns := 0
      logs := [] }

theorem chunkListAux_congr (n : Nat) (hn : n ≠ 0) :
    ∀ (f1 : Nat), ∀ (f2 : Nat) (l : List α), l.length ≤ f1 → l.length ≤ f2 →
      chunkListAux n f1 l = chunkListAux n f2 l := by
  intro f1
  induction f1 with
  | zero =>
    intro f2 l h1 h2
    have : l = [] := List.eq_nil_of_length_eq_zero (Nat.le_zero.mp h1)
    subst this
    cases f2 <;> rfl
  | succ f1 ih =>
    intro f2 l h1 h2
    rcases l with _ | ⟨a, t⟩
    · cases f2 <;> rfl
    · rcases f2 with _ | f2
      · simp at h2
      · show (a :: t).take n :: chunkListAux n f1 ((a :: t).drop n)
            = (a :: t).take n :: chunkListAux n f2 ((a :: t).drop n)
        have hd : ((a :: t).drop n).length ≤ t.length := by
          simp only [List.length_drop, List.length_cons]
          have := Nat.pos_of_ne_zero hn
          omega
        have h1' : ((a :: t).drop n).length ≤ f1 := by
          simp only [List.length_cons] at h1
          omega
        have h2' : ((a :: t).drop n).length ≤ f2 := by
          simp only [List.length_cons] at h2
          omega
        rw [ih f2 ((a :: t).drop n) h1' h2']

theorem chunkList_nil (n : Nat) : chunkList n ([] : List α) = [] := by
  unfold chunkList
  split <;> rfl

theorem chunkList_cons (n : Nat) (l : List α) (hn : n ≠ 0) (hl : l ≠ []) :
    chunkList n l = l.take n :: chunkList n (l.drop n) := by
  rcases l with _ | ⟨a, t⟩
  · exact absurd rfl hl
  · unfold chunkList
    rw [if_neg hn, if_neg hn]
    show chunkListAux n (t.length + 1) (a :: t)
        = (a :: t).take n :: chunkListAux n ((a :: t).drop n).length ((a :: t).drop n)
    have hd : ((a :: t).drop n).length ≤ t.length := by
      simp only [List.length_drop, List.length_cons]
      have := Nat.pos_of_ne_zero hn
      omega
    have hstep : chunkListAux n (t.length + 1) (a :: t)
        = (a :: t).take n :: chunkListAux n t.length ((a :: t).drop n) := rfl
    rw [hstep, chunkListAux_congr n hn t.length (((a :: t).drop n).length)
      ((a :: t).drop n) hd (le_refl _)]

theorem chunkList_length (n m : Nat) (l : List α) (hn : n ≠ 0)
    (hl : l.length = n * m) : (chunkList n l).length = m := by
  induction m generalizing l with
  | zero =>
    have : l = [] := List.eq_nil_of_length_eq_zero (by simpa using hl)
    simp [this, chunkList_nil]
  | succ m ih =>
    have hne : l ≠ [] := by
      intro hnil
      rw [hnil] at hl
      simp only [List.length_nil] at hl
      rcases Nat.mul_eq_zero.mp hl.symm with h1 | h1
      · exact hn h1
      · omega
    rw [chunkList_cons n l hn hne]
    have hdl : (l.drop n).length = n * m := by
      simp [List.length_drop, hl, Nat.mul_succ]
    simp [ih (l.drop n) hdl]

theorem chunkList_getD (n m i : Nat) (l : List α) (hn : n ≠ 0)
    (hl : l.length = n * m) (hi : i < m) :
    (chunkList n l).getD i [] = (l.drop (n * i)).take n := by
  induction i generalizing l m with
  | zero =>
    have hm : 0 < m := hi
    have hne : l ≠ [] := by
      intro hnil
      rw [hnil] at hl
      simp only [List.length_nil] at hl
      rcases Nat.mul_eq_zero.mp hl.symm with h1 | h1
      · exact hn h1
      · omega
    rw [chunkList_cons n l hn hne]
    simp
  | succ i ih =>
    have hm : 1 ≤ m := by omega
    have hne : l ≠ [] := by
      intro hnil
      rw [hnil] at hl
      simp only [List.length_nil] at hl
      rcases Nat.mul_eq_zero.mp hl.symm with h1 | h1
      · exact hn h1
      · omega
    rw [chunkList_cons n l hn hne]
    have hdl : (l.drop n).length = n * (m - 1) := by
      simp [List.length_drop, hl]
      cases m with
      | zero => omega
      | succ m0 => simp [Nat.mul_succ]
    have := ih (m - 1) (l.drop n) hdl (by omega)
    simpa [List.drop_drop, Nat.mul_succ, Nat.add_comm] using this

theorem flatten_drop_uniform (D k : Nat) (fs : List (List α))
    (h : ∀ f ∈ fs, f.length = D) :
    fs.flatten.drop (D * k) = (fs.drop k).flatten := by
  induction k generalizing fs with
  | zero => simp
  | succ k ih =>
    rcases fs with _ | ⟨f, t⟩
    · simp
    · have hf : f.length = D := h f (by simp)
      have ht : ∀ g ∈ t, g.length = D := fun g hg => h g (by simp [hg])
      rw [List.flatten_cons]
      calc (f ++ t.flatten).drop (D * (k + 1))
          = ((f ++ t.flatten).drop D).drop (D * k) := by
            rw [List.drop_drop]
            ring_nf
      _ = t.flatten.drop (D * k) := by rw [List.drop_left' hf]
      _ = (t.drop k).flatten := ih t ht
      _ = ((f :: t).drop (k + 1)).flatten := by simp

theorem flatten_take_uniform (D k : Nat) (fs : List (List α))
    (h : ∀ f ∈ fs, f.length = D) :
    fs.flatten.take (D * k) = (fs.take k).flatten := by
  induction k generalizing fs with
  | zero => simp
  | succ k ih =>
    rcases fs with _ | ⟨f, t⟩
    · simp
    · have hf : f.length = D := h f (by simp)
      have ht : ∀ g ∈ t, g.length = D := fun g hg => h g (by simp [hg])
      rw [List.flatten_cons]
      calc (f ++ t.flatten).take (D * (k + 1))
          = (f ++ t.flatten).take (f.length + D * k) := by
            rw [hf]
            ring_nf
      _ = f ++ t.flatten.take (D * k) := List.take_append _
      _ = f ++ (t.take k).flatten := by rw [ih t ht]
      _ = ((f :: t).take (k + 1)).flatten := by simp

theorem flatten_length_uniform (D : Nat) (fs : List (List α))
    (h : ∀ f ∈ fs, f.length = D) :
    fs.flatten.length = fs.length * D := by
  induction fs with
  | nil => simp
  | cons f t ih =>
    have hf : f.length = D := h f (by simp)
    have ht := ih (fun g hg => h g (by simp [hg]))
    simp [List.flatten_cons, hf, ht, Nat.succ_mul, Nat.add_comm]

theorem down_sample_frames_eq (dr : Nat) (spec : List (List (List α))) :
    down_sample_frames dr spec =
      (if (spec.headD []).length % dr ≠ 0
        then spec.map
          (fun u => u.take ((spec.headD []).length - (spec.headD []).length % dr))
        else spec).map
        (fun u => chunkList (((spec.headD []).headD []).length * dr) u.flatten) :=
  rfl

theorem down_sample_frames_getD_key (dr T D : Nat) (spec : List (List (List α)))
    (hT : ∀ u ∈ spec, u.length = T)
    (hD : ∀ u ∈ spec, ∀ f ∈ u, f.length = D)
    (b : Nat) (hb : b < spec.length) :
    (down_sample_frames dr spec).getD b [] =
      chunkList (D * dr) (((spec.getD b []).take (dr * (T / dr))).flatten) := by
  have hmem : spec.getD b [] ∈ spec := by
    rw [List.getD_eq_getElem _ _ hb]
    exact List.getElem_mem hb
  have hub : (spec.getD b []).length = T := hT _ hmem
  have hheadmem : spec.headD [] ∈ spec := by
    rcases spec with _ | ⟨u0, rest⟩
    · simp at hb
    · simp
  have hhT : (spec.headD []).length = T := hT _ hheadmem
  rw [down_sample_frames_eq]
  rcases Nat.eq_zero_or_pos T with hT0 | hTpos
  · -- all utterances are empty, so both sides are the empty chunk list
    have hu : spec.getD b [] = [] :=
      List.eq_nil_of_length_eq_zero (by rw [hub, hT0])
    have hcond : ¬((spec.headD []).length % dr ≠ 0) := by
      rw [hhT, hT0]
      simp
    rw [if_neg hcond]
    rw [List.getD_eq_getElem _ _ (by simpa using hb), List.getElem_map,
      ← List.getD_eq_getElem spec [] hb, hu]
    simp [chunkList_nil]
  · -- T > 0 : the head utterance is nonempty, so the code reads off width D
    have hwidth : ((spec.headD []).headD []).length = D := by
      have hne : spec.headD [] ≠ [] := by
        intro h
        rw [h] at hhT
        simp at hhT
        omega
      have hin : (spec.headD []).headD [] ∈ spec.headD [] := by
        rcases h0 : spec.headD [] with _ | ⟨f0, fr⟩
        · exact absurd h0 hne
        · simp
      exact hD _ hheadmem _ hin
    rw [hhT, hwidth]
    by_cases hmod : T % dr = 0
    · rw [if_neg (by simp [hmod])]
      rw [List.getD_eq_getElem _ _ (by simpa using hb), List.getElem_map,
        ← List.getD_eq_getElem spec [] hb]
      have hcancel : dr * (T / dr) = T :=
        Nat.mul_div_cancel' (Nat.dvd_of_mod_eq_zero hmod)
      rw [hcancel, List.take_of_length_le (le_of_eq hub)]
    · rw [if_pos (by simpa using hmod)]
      rw [List.map_map]
      rw [List.getD_eq_getElem _ _ (by simpa using hb), List.getElem_map,
        ← List.getD_eq_getElem spec [] hb]
      simp only [Function.comp]
      have hN : T - T % dr = dr * (T / dr) := by
        have := Nat.div_add_mod T dr
        omega
      rw [hN]

/-- C8: `down_sample_frames` keeps the batch size, deterministically drops the
last `raw_time % dr` raw frames, and returns per utterance `raw_time / dr`
output steps, each the concatenation of `dr` consecutive raw frames, of width
`feature_dim * dr`. -/
theorem down_sample_frames_spec {α : Type} (dr T D : Nat) (spec : List (List (List α)))
    (hdr : 0 < dr) (hD0 : 0 < D)
    (hT : ∀ u ∈ spec, u.length = T)
    (hD : ∀ u ∈ spec, ∀ f ∈ u, f.length = D) :
    (down_sample_frames dr spec).length = spec.length ∧
    (∀ b, b < spec.length →
      ((down_sample_frames dr spec).getD b []).length = T / dr) ∧
    (∀ b t, b < spec.length → t < T / dr →
      ((down_sample_frames dr spec).getD b []).getD t [] =
        (((spec.getD b []).drop (dr * t)).take dr).flatten) ∧
    (∀ b t, b < spec.length → t < T / dr →
      (((down_sample_frames dr spec).getD b []).getD t []).length = D * dr) := by
  have hn0 : D * dr ≠ 0 := Nat.mul_ne_zero (by omega) (by omega)
  have hNle : dr * (T / dr) ≤ T := by
    rw [Nat.mul_comm]
    exact Nat.div_mul_le_self T dr
  -- shared facts about the truncated utterance of row `b`
  have hkey := down_sample_frames_getD_key dr T D spec hT hD
  have hflat : ∀ b, b < spec.length →
      (((spec.getD b []).take (dr * (T / dr))).flatten).length
        = (D * dr) * (T / dr) := by
    intro b hb
    have hmem : spec.getD b [] ∈ spec := by
      rw [List.getD_eq_getElem _ _ hb]
      exact List.getElem_mem hb
    have hub : (spec.getD b []).length = T := hT _ hmem
    have hwid : ∀ f ∈ (spec.getD b []).take (dr * (T / dr)), f.length = D :=
      fun f hf => hD _ hmem f (List.mem_of_mem_take hf)
    rw [flatten_length_uniform D _ hwid, List.length_take, hub,
      Nat.min_eq_left hNle]
    ring
  refine ⟨?_, ?_, ?_, ?_⟩
  · -- batch size preserved
    simp only [down_sample_frames]
    split <;> simp
  · intro b hb
    rw [hkey b hb, chunkList_length (D * dr) (T / dr) _ hn0 (hflat b hb)]
  · intro b t hb ht
    have hmem : spec.getD b [] ∈ spec := by
      rw [List.getD_eq_getElem _ _ hb]
      exact List.getElem_mem hb
    have hub : (spec.getD b []).length = T := hT _ hmem
    have hwid : ∀ f ∈ (spec.getD b []).take (dr * (T / dr)), f.length = D :=
      fun f hf => hD _ hmem f (List.mem_of_mem_take hf)
    have hstep : dr * t + dr ≤ dr * (T / dr) := by
      have : t + 1 ≤ T / dr := ht
      calc dr * t + dr = dr * (t + 1) := by ring
      _ ≤ dr * (T / dr) := Nat.mul_le_mul_left dr this
    rw [hkey b hb,
      chunkList_getD (D * dr) (T / dr) t _ hn0 (hflat b hb) ht]
    have h1 : (D * dr) * t = D * (dr * t) := by ring
    rw [h1, flatten_drop_uniform D (dr * t) _ hwid]
    have hwid2 : ∀ f ∈ ((spec.getD b []).take (dr * (T / dr))).drop (dr * t),
        f.length = D := fun f hf => hwid f (List.mem_of_mem_drop hf)
    have h2 : (D * dr : Nat) = D * dr := rfl
    rw [flatten_take_uniform D dr _ hwid2]
    congr 1
    rw [List.drop_take, List.take_take]
    congr 1
    omega
  · intro b t hb ht
    have hmem : spec.getD b [] ∈ spec := by
      rw [List.getD_eq_getElem _ _ hb]
      exact List.getElem_mem hb
    have hub : (spec.getD b []).length = T := hT _ hmem
    have hstep : dr * t + dr ≤ T := by
      have : t + 1 ≤ T / dr := ht
      have h3 : dr * t + dr = dr * (t + 1) := by ring
      have h4 : dr * (t + 1) ≤ dr * (T / dr) := Nat.mul_le_mul_left dr this
      omega
    -- reuse the value description just proven
    have hval : ((down_sample_frames dr spec).getD b []).getD t [] =
        (((spec.getD b []).drop (dr * t)).take dr).flatten := by
      have hwid : ∀ f ∈ (spec.getD b []).take (dr * (T / dr)), f.length = D :=
        fun f hf => hD _ hmem f (List.mem_of_mem_take hf)
      rw [hkey b hb,
        chunkList_getD (D * dr) (T / dr) t _ hn0 (hflat b hb) ht]
      have h1 : (D * dr) * t = D * (dr * t) := by ring
      rw [h1, flatten_drop_uniform D (dr * t) _ hwid]
      have hwid2 : ∀ f ∈ ((spec.getD b []).take (dr * (T / dr))).drop (dr * t),
          f.length = D := fun f hf => hwid f (List.mem_of_mem_drop hf)
      rw [flatten_take_uniform D dr _ hwid2]
      congr 1
      rw [List.drop_take, List.take_take]
      congr 1
      have h3 : t + 1 ≤ T / dr := ht
      have h4 : dr * (t + 1) ≤ dr * (T / dr) := Nat.mul_le_mul_left dr h3
      have h5 : dr * t + dr ≤ dr * (T / dr) := by
        calc dr * t + dr = dr * (t + 1) := by ring
        _ ≤ dr * (T / dr) := h4
      omega
    rw [hval]
    have hwid3 : ∀ f ∈ ((spec.getD b []).drop (dr * t)).take dr,
        f.length = D := fun f hf =>
      hD _ hmem f (List.mem_of_mem_drop (List.mem_of_mem_take hf))
    rw [flatten_length_uniform D _ hwid3, List.length_take, List.length_drop,
      hub]
    have : min dr (T - dr * t) = dr := by omega
    rw [this]
    ring

/-- Witness for `down_sample_frames_spec` on one utterance of five
one-dimensional frames with `dr = 2`. -/
theorem down_sample_frames_spec_witness :
    0 < 2 ∧ 0 < 1 ∧
    (∀ u ∈ [[[(1:ℤ)], [2], [3], [4], [5]]], u.length = 5) ∧
    (∀ u ∈ [[[(1:ℤ)], [2], [3], [4], [5]]], ∀ f ∈ u, f.length = 1) ∧
    ((down_sample_frames 2 [[[(1:ℤ)], [2], [3], [4], [5]]]).length
        = [[[(1:ℤ)], [2], [3], [4], [5]]].length ∧
      (∀ b, b < [[[(1:ℤ)], [2], [3], [4], [5]]].length →
        ((down_sample_frames 2 [[[(1:ℤ)], [2], [3], [4], [5]]]).getD
          b []).length = 5 / 2) ∧
      (∀ b t, b < [[[(1:ℤ)], [2], [3], [4], [5]]].length → t < 5 / 2 →
        ((down_sample_frames 2 [[[(1:ℤ)], [2], [3], [4], [5]]]).getD
            b []).getD t [] =
          ((([[[(1:ℤ)], [2], [3], [4], [5]]].getD b []).drop
            (2 * t)).take 2).flatten) ∧
      (∀ b t, b < [[[(1:ℤ)], [2], [3], [4], [5]]].length → t < 5 / 2 →
        (((down_sample_frames 2 [[[(1:ℤ)], [2], [3], [4], [5]]]).getD
            b []).getD t []).length = 1 * 2)) :=
  ⟨by decide, by decide, by decide, by decide,
    down_sample_frames_spec 2 5 1 [[[(1:ℤ)], [2], [3], [4], [5]]]
      (by decide) (by decide) (by decide) (by decide)⟩

-- generic indexing helpers -------------------------------------------------
theorem getD_map_range (n i : Nat) (f : Nat → α) (d : α) (hi : i < n) :
    (((List.range n).map f).getD i d) = f i := by
  rw [List.getD_eq_getElem _ _ (by simpa using hi), List.getElem_map,
    List.getElem_range]

theorem getD_enum_map (l : List α) (g : Nat × α → β) (i : Nat) (d : β)
    (hi : i < l.length) :
    ((l.enum.map g).getD i d) = g (i, l[i]) := by
  rw [List.getD_eq_getElem _ _ (by simpa [List.enum_length] using hi),
    List.getElem_map, List.getElem_enum]

theorem position_encoding_row_none (hidden_size seq_len pos : Nat)
    (hpos : pos < seq_len) :
    (position_encoding hidden_size seq_len none).getD pos [] =
      (get_posi_angle_vec hidden_size pos).enum.map
        (fun jv => if jv.1 % 2 = 0 then Real.sin jv.2 else Real.cos jv.2) := by
  show ((List.range seq_len).map _ |>.map _).getD pos [] = _
  rw [List.map_map]
  rw [getD_map_range seq_len pos _ _ hpos]
  rfl

theorem position_encoding_row_some (hidden_size seq_len pos vl : Nat)
    (hpos : pos < seq_len) :
    (position_encoding hidden_size seq_len (some vl)).getD pos [] =
      (if vl ≤ pos
        then ((get_posi_angle_vec hidden_size pos).enum.map
          (fun jv => if jv.1 % 2 = 0 then Real.sin jv.2 else Real.cos jv.2)).map
            (fun _ => (0 : ℝ))
        else (get_posi_angle_vec hidden_size pos).enum.map
          (fun jv => if jv.1 % 2 = 0 then Real.sin jv.2 else Real.cos jv.2)) := by
  show ((((List.range seq_len).map _).map _).enum.map _).getD pos [] = _
  rw [getD_enum_map _ _ pos []
    (by simpa using hpos)]
  rw [List.getElem_map]
  rw [List.getElem_map]
  rw [List.getElem_range]

theorem sincos_row_getD (h p dim : Nat) (hdim : dim < h) :
    ((get_posi_angle_vec h p).enum.map
      (fun jv => if jv.1 % 2 = 0 then Real.sin jv.2 else Real.cos jv.2)).getD dim 0 =
      if dim % 2 = 0 then Real.sin (cal_angle h p dim)
        else Real.cos (cal_angle h p dim) := by
  have hlen : dim < (get_posi_angle_vec h p).length := by
    simpa [get_posi_angle_vec] using hdim
  rw [getD_enum_map _ _ dim 0 hlen]
  have hval : (get_posi_angle_vec h p)[dim] = cal_angle h p dim := by
    simp only [get_posi_angle_vec, List.getElem_map, List.getElem_range]
  rw [hval]

theorem sincos_row_length (h p : Nat) :
    ((get_posi_angle_vec h p).enum.map
      (fun jv => if jv.1 % 2 = 0 then Real.sin jv.2 else Real.cos jv.2)).length = h := by
  simp [List.enum_length, get_posi_angle_vec]

/-- C9: `position_encoding` returns a `seq_len × hidden_size` table whose
entry `(pos, dim)` is `sin(pos / 10000^(2*(dim//2)/hidden_size))` for even
`dim` and `cos` of the same angle for odd `dim`; with a supplied valid
length, rows at index `>= valid_length` are exactly zero while earlier rows
keep the closed-form value. -/
theorem position_encoding_spec (hidden_size seq_len vl pos dim : Nat)
    (hpos : pos < seq_len) (hdim : dim < hidden_size) :
    ((position_encoding hidden_size seq_len none).length = seq_len ∧
      (position_encoding hidden_size seq_len (some vl)).length = seq_len) ∧
    (((position_encoding hidden_size seq_len none).getD pos []).length
        = hidden_size ∧
      ((position_encoding hidden_size seq_len (some vl)).getD pos []).length
        = hidden_size) ∧
    (((position_encoding hidden_size seq_len none).getD pos []).getD dim 0 =
      if dim % 2 = 0
        then Real.sin ((pos : ℝ) /
          (10000 : ℝ) ^ (((2 * (dim / 2) : Nat) : ℝ) / (hidden_size : ℝ)))
        else Real.cos ((pos : ℝ) /
          (10000 : ℝ) ^ (((2 * (dim / 2) : Nat) : ℝ) / (hidden_size : ℝ)))) ∧
    (vl ≤ pos →
      ((position_encoding hidden_size seq_len (some vl)).getD pos []).getD dim 0
        = 0) ∧
    (pos < vl →
      ((position_encoding hidden_size seq_len (some vl)).getD pos []).getD dim 0 =
      if dim % 2 = 0
        then Real.sin ((pos : ℝ) /
          (10000 : ℝ) ^ (((2 * (dim / 2) : Nat) : ℝ) / (hidden_size : ℝ)))
        else Real.cos ((pos : ℝ) /
          (10000 : ℝ) ^ (((2 * (dim / 2) : Nat) : ℝ) / (hidden_size : ℝ)))) := by
  refine ⟨⟨?_, ?_⟩, ⟨?_, ?_⟩, ?_, ?_, ?_⟩
  · show (((List.range seq_len).map _).map _).length = seq_len
    simp
  · show ((((List.range seq_len).map _).map _).enum.map _).length = seq_len
    simp [List.enum_length]
  · rw [position_encoding_row_none hidden_size seq_len pos hpos,
      sincos_row_length]
  · rw [position_encoding_row_some hidden_size seq_len pos vl hpos]
    split
    · simp [List.enum_length, get_posi_angle_vec]
    · exact sincos_row_length _ _
  · rw [position_encoding_row_none hidden_size seq_len pos hpos,
      sincos_row_getD hidden_size pos dim hdim]
    rfl
  · intro hvl
    rw [position_encoding_row_some hidden_size seq_len pos vl hpos, if_pos hvl]
    have hlen : dim < ((get_posi_angle_vec hidden_size pos).enum.map
        (fun jv => if jv.1 % 2 = 0 then Real.sin jv.2 else Real.cos jv.2)).length := by
      rw [sincos_row_length]
      exact hdim
    rw [List.getD_eq_getElem _ _ (by simpa using hlen), List.getElem_map]
  · intro hvl
    rw [position_encoding_row_some hidden_size seq_len pos vl hpos,
      if_neg (by omega), sincos_row_getD hidden_size pos dim hdim]
    rfl

/-- Witness for `position_encoding_spec` at
`hidden_size = 2, seq_len = 2, vl = 1, pos = 1, dim = 0`. -/
theorem position_encoding_spec_witness :
    1 < 2 ∧ 0 < 2 ∧
    ((position_encoding 2 2 (some 1)).getD 1 []).getD 0 0 = 0 :=
  ⟨by decide, by decide,
    (position_encoding_spec 2 2 1 1 0 (by decide) (by decide)).2.2.2.1
      (by decide)⟩

section MaskingFacts

variable {R : Type} [AddCommMonoid R] [One R] [DecidableEq R]

-- basic facts about the masking pieces ---------------------------------------
theorem sub_rand_le_sub_mask (k : Nat) :
    sub_rand_proportion k ≤ sub_mask_proportion k := by
  apply Nat.floor_le_floor
  have hk : (0 : ℚ) ≤ (k : ℚ) := Nat.cast_nonneg k
  have : (0.1 : ℚ) ≤ (0.8 : ℚ) := by norm_num
  exact mul_le_mul_of_nonneg_left this hk

/-- The swapped group is always empty: `int(k*0.8) ≥ int(k*0.1)`, so the
slice `chosen_index[sub_mask_proportion:sub_rand_proportion]` never contains
an element. -/
theorem random_index_eq_nil (chosen : List Nat) : random_index chosen = [] := by
  unfold random_index
  have h := sub_rand_le_sub_mask chosen.length
  have : sub_rand_proportion chosen.length - sub_mask_proportion chosen.length
      = 0 := Nat.sub_eq_zero_of_le h
  rw [this, List.take_zero]

theorem apply_swaps_nil (off : Nat → Nat) (x : List (List R)) :
    apply_swaps off [] x = x := rfl

theorem set_rows_const_length (c : R) (idxs : List Nat) (x : List (List R)) :
    (set_rows_const c idxs x).length = x.length := by
  induction idxs generalizing x with
  | nil => rfl
  | cons j rest ih =>
    show (set_rows_const c rest _).length = x.length
    rw [ih]
    exact List.length_set x j _

theorem width_set (W : Nat) (c : R) (j : Nat) (x : List (List R))
    (hw : ∀ f ∈ x, f.length = W) :
    ∀ f ∈ x.set j (List.replicate (x.getD j []).length c), f.length = W := by
  intro f hf
  rcases Nat.lt_or_ge j x.length with hj | hj
  · rcases List.mem_or_eq_of_mem_set hf with hold | hnew
    · exact hw f hold
    · rw [hnew, List.length_replicate, List.getD_eq_getElem _ _ hj]
      exact hw _ (List.getElem_mem hj)
  · rw [List.set_eq_of_length_le hj] at hf
    exact hw f hf

theorem set_rows_const_width (W : Nat) (c : R) (idxs : List Nat)
    (x : List (List R)) (hw : ∀ f ∈ x, f.length = W) :
    ∀ f ∈ set_rows_const c idxs x, f.length = W := by
  induction idxs generalizing x with
  | nil => exact hw
  | cons j rest ih =>
    show ∀ f ∈ set_rows_const c rest _, f.length = W
    exact ih _ (width_set W c j x hw)

theorem set_rows_const_getD_not_mem (c : R) (idxs : List Nat)
    (x : List (List R)) (i : Nat) (hi : i ∉ idxs) :
    (set_rows_const c idxs x).getD i [] = x.getD i [] := by
  induction idxs generalizing x with
  | nil => rfl
  | cons j rest ih =>
    have hij : i ≠ j := fun h => hi (by simp [h])
    have hrest : i ∉ rest := fun h => hi (by simp [h])
    show (set_rows_const c rest _).getD i [] = x.getD i []
    rw [ih _ hrest, List.getD_eq_getElem?_getD, List.getD_eq_getElem?_getD,
      List.getElem?_set_ne (fun h => hij h.symm)]

theorem set_rows_const_getD_mem (W : Nat) (c : R) (idxs : List Nat)
    (x : List (List R)) (hw : ∀ f ∈ x, f.length = W) (i : Nat)
    (hmem : i ∈ idxs) (hilt : i < x.length) :
    (set_rows_const c idxs x).getD i [] = List.replicate W c := by
  induction idxs generalizing x with
  | nil => simp at hmem
  | cons j rest ih =>
    show (set_rows_const c rest
      (x.set j (List.replicate (x.getD j []).length c))).getD i [] = _
    by_cases hir : i ∈ rest
    · exact ih _ (width_set W c j x hw) hir (by rw [List.length_set]; exact hilt)
    · have hij : i = j := by
        rcases List.mem_cons.mp hmem with h | h
        · exact h
        · exact absurd h hir
      subst hij
      rw [set_rows_const_getD_not_mem c rest _ i hir,
        List.getD_eq_getElem?_getD, List.getElem?_set_self hilt]
      have : (x.getD i []).length = W := by
        rw [List.getD_eq_getElem _ _ hilt]
        exact hw _ (List.getElem_mem hilt)
      rw [this]
      rfl

-- projections of process_utter ----------------------------------------------
theorem process_utter_fst (p : ℚ) (ld hs : Nat) (perm : List Nat)
    (off : Nat → Nat) (frames : List (List R)) :
    (process_utter p ld hs perm off frames).1 =
      set_rows_const 0
        (masked_index (chosen_index p (spec_len frames) perm)) frames := by
  show set_rows_const 0 (masked_index (chosen_index p (spec_len frames) perm))
      (apply_swaps off
        (random_index (chosen_index p (spec_len frames) perm)) frames) = _
  rw [random_index_eq_nil, apply_swaps_nil]

theorem process_utter_fst_length (p : ℚ) (ld hs : Nat) (perm : List Nat)
    (off : Nat → Nat) (frames : List (List R)) :
    ((process_utter p ld hs perm off frames).1).length = frames.length := by
  rw [process_utter_fst, set_rows_const_length]

theorem process_utter_label (p : ℚ) (ld hs : Nat) (perm : List Nat)
    (off : Nat → Nat) (frames : List (List R)) :
    (process_utter p ld hs perm off frames).2.2.1 =
      set_rows_const 1 (chosen_index p (spec_len frames) perm)
        (List.replicate (spec_len frames) (List.replicate ld (0 : R))) := rfl

theorem process_utter_label_length (p : ℚ) (ld hs : Nat) (perm : List Nat)
    (off : Nat → Nat) (frames : List (List R)) :
    ((process_utter p ld hs perm off frames).2.2.1).length = spec_len frames := by
  rw [process_utter_label, set_rows_const_length, List.length_replicate]

theorem process_utter_attn (p : ℚ) (ld hs : Nat) (perm : List Nat)
    (off : Nat → Nat) (frames : List (List R)) :
    (process_utter p ld hs perm off frames).2.2.2 =
      List.replicate (spec_len frames) (1 : R) := rfl

theorem process_utter_pos (p : ℚ) (ld hs : Nat) (perm : List Nat)
    (off : Nat → Nat) (frames : List (List R)) :
    (process_utter p ld hs perm off frames).2.1 =
      position_encoding hs frames.length (some (spec_len frames)) := by
  show position_encoding hs
      (set_rows_const 0 (masked_index (chosen_index p (spec_len frames) perm))
        (apply_swaps off
          (random_index (chosen_index p (spec_len frames) perm)) frames)).length
      (some (spec_len frames)) = _
  rw [random_index_eq_nil, apply_swaps_nil, set_rows_const_length]

theorem position_encoding_some_length (h s v : Nat) :
    (position_encoding h s (some v)).length = s := by
  show ((((List.range s).map _).map _).enum.map _).length = s
  simp [List.enum_length]

-- facts about spec_len -------------------------------------------------------
theorem spec_len_cons (f : List R) (t : List (List R)) :
    spec_len (f :: t) = (if f.sum ≠ 0 then 1 else 0) + spec_len t := rfl

theorem spec_len_eq_countP (u : List (List R)) :
    spec_len u = u.countP (fun row => decide (row.sum ≠ 0)) := by
  induction u with
  | nil => rfl
  | cons f t ih =>
    rw [spec_len_cons, ih, List.countP_cons]
    by_cases hf : f.sum ≠ 0 <;> simp [hf, Nat.add_comm]

theorem spec_len_le_length (u : List (List R)) : spec_len u ≤ u.length := by
  rw [spec_len_eq_countP]
  exact List.countP_le_length _

theorem spec_len_lt_of_zero_row (u : List (List R))
    (h : ∃ row ∈ u, row.sum = 0) : spec_len u < u.length := by
  induction u with
  | nil => simp at h
  | cons f t ih =>
    rcases h with ⟨row, hrow, hsum⟩
    rcases List.mem_cons.mp hrow with heq | hmem
    · subst heq
      rw [spec_len_cons, if_neg (by simpa using hsum)]
      have := spec_len_le_length t
      simpa using Nat.lt_succ_of_le this
    · have := ih ⟨row, hmem, hsum⟩
      rw [spec_len_cons]
      by_cases hf : f.sum ≠ 0 <;> simp [hf] <;> omega

-- projections of process_MAM_data --------------------------------------------
theorem process_MAM_spec_masked_getD (dr : Nat) (p : ℚ) (sd hs : Nat)
    (perms : Nat → List Nat) (offs : Nat → Nat → Nat)
    (spec : List (List (List (List R)))) (b : Nat)
    (hb : b < (down_sample_frames dr (spec.headD [])).length) :
    (process_MAM_data dr p sd hs perms offs spec).spec_masked.getD b [] =
      (process_utter p (sd * dr) hs (perms b) (offs b)
        ((down_sample_frames dr (spec.headD [])).getD b [])).1 := by
  show ((((down_sample_frames dr (spec.headD [])).enum.map
      (fun iu => process_utter p (sd * dr) hs (perms iu.1) (offs iu.1) iu.2)).map
      (fun o => o.1)).getD b []) = _
  rw [List.getD_eq_getElem _ _ (by simpa [List.enum_length] using hb),
    List.getElem_map, List.getElem_map, List.getElem_enum,
    List.getD_eq_getElem _ _ hb]

theorem process_MAM_pos_enc_getD (dr : Nat) (p : ℚ) (sd hs : Nat)
    (perms : Nat → List Nat) (offs : Nat → Nat → Nat)
    (spec : List (List (List (List R)))) (b : Nat)
    (hb : b < (down_sample_frames dr (spec.headD [])).length) :
    (process_MAM_data dr p sd hs perms offs spec).pos_enc.getD b [] =
      (process_utter p (sd * dr) hs (perms b) (offs b)
        ((down_sample_frames dr (spec.headD [])).getD b [])).2.1 := by
  show ((((down_sample_frames dr (spec.headD [])).enum.map
      (fun iu => process_utter p (sd * dr) hs (perms iu.1) (offs iu.1) iu.2)).map
      (fun o => o.2.1)).getD b []) = _
  rw [List.getD_eq_getElem _ _ (by simpa [List.enum_length] using hb),
    List.getElem_map, List.getElem_map, List.getElem_enum,
    List.getD_eq_getElem _ _ hb]

theorem process_MAM_mask_label_getD (dr : Nat) (p : ℚ) (sd hs : Nat)
    (perms : Nat → List Nat) (offs : Nat → Nat → Nat)
    (spec : List (List (List (List R)))) (b : Nat)
    (hb : b < (down_sample_frames dr (spec.headD [])).length) :
    (process_MAM_data dr p sd hs perms offs spec).mask_label.getD b [] =
      (process_utter p (sd * dr) hs (perms b) (offs b)
        ((down_sample_frames dr (spec.headD [])).getD b [])).2.2.1 := by
  show ((((down_sample_frames dr (spec.headD [])).enum.map
      (fun iu => process_utter p (sd * dr) hs (perms iu.1) (offs iu.1) iu.2)).map
      (fun o => o.2.2.1)).getD b []) = _
  rw [List.getD_eq_getElem _ _ (by simpa [List.enum_length] using hb),
    List.getElem_map, List.getElem_map, List.getElem_enum,
    List.getD_eq_getElem _ _ hb]

theorem process_MAM_attn_mask_getD (dr : Nat) (p : ℚ) (sd hs : Nat)
    (perms : Nat → List Nat) (offs : Nat → Nat → Nat)
    (spec : List (List (List (List R)))) (b : Nat)
    (hb : b < (down_sample_frames dr (spec.headD [])).length) :
    (process_MAM_data dr p sd hs perms offs spec).attn_mask.getD b [] =
      (process_utter p (sd * dr) hs (perms b) (offs b)
        ((down_sample_frames dr (spec.headD [])).getD b [])).2.2.2 := by
  show ((((down_sample_frames dr (spec.headD [])).enum.map
      (fun iu => process_utter p (sd * dr) hs (perms iu.1) (offs iu.1) iu.2)).map
      (fun o => o.2.2.2)).getD b []) = _
  rw [List.getD_eq_getElem _ _ (by simpa [List.enum_length] using hb),
    List.getElem_map, List.getElem_map, List.getElem_enum,
    List.getD_eq_getElem _ _ hb]

-- claim theorems -------------------------------------------------------------
/-- C2: for an utterance of valid length `L` and `mask_proportion p ∈ (0,1)`,
the sample drawn in `process_MAM_data` has exactly `⌊L·p⌋` elements, they are
pairwise distinct, and each lies in `[0, L)`. -/
theorem chosen_index_spec (p : ℚ) (L : Nat) (perm : List Nat)
    (hp0 : 0 < p) (hp1 : p < 1) (hperm : perm.Perm (List.range L)) :
    (chosen_index p L perm).length = Nat.floor ((L : ℚ) * p) ∧
    (chosen_index p L perm).Nodup ∧
    (∀ i ∈ chosen_index p L perm, i < L) := by
  have hplen : perm.length = L := by simpa using hperm.length_eq
  have hk : Nat.floor ((L : ℚ) * p) ≤ L := by
    have h1 : (L : ℚ) * p ≤ (L : ℚ) := by
      calc (L : ℚ) * p ≤ (L : ℚ) * 1 :=
        mul_le_mul_of_nonneg_left (le_of_lt hp1) (Nat.cast_nonneg L)
      _ = (L : ℚ) := mul_one _
    calc Nat.floor ((L : ℚ) * p) ≤ Nat.floor ((L : ℚ)) := Nat.floor_le_floor h1
    _ = L := Nat.floor_natCast L
  refine ⟨?_, ?_, ?_⟩
  · unfold chosen_index
    rw [List.length_take, hplen]
    omega
  · exact (List.take_sublist _ _).nodup
      ((hperm.nodup_iff).mpr (List.nodup_range L))
  · intro i hi
    have h2 : i ∈ perm := List.mem_of_mem_take hi
    have h3 : i ∈ List.range L := (hperm.mem_iff).mp h2
    simpa using h3

/-- Witness for `chosen_index_spec` at `p = 1/2`, `L = 3`,
`perm = [0, 1, 2]`. -/
theorem chosen_index_spec_witness :
    (0 : ℚ) < 1/2 ∧ (1/2 : ℚ) < 1 ∧
    (List.range 3).Perm (List.range 3) ∧
    ((chosen_index (1/2) 3 (List.range 3)).length
        = Nat.floor ((3 : ℚ) * (1/2)) ∧
      (chosen_index (1/2) 3 (List.range 3)).Nodup ∧
      (∀ i ∈ chosen_index (1/2) 3 (List.range 3), i < 3)) :=
  ⟨by norm_num, by norm_num, List.Perm.refl _,
    chosen_index_spec (1/2) 3 (List.range 3) (by norm_num) (by norm_num)
      (List.Perm.refl _)⟩

/-- C3: with `m = int(k*0.8)` and `r = int(k*0.1)`, the zeroed group is
exactly the first `m` chosen indices, the swapped group is exactly the slice
`chosen[m:r]`, and the swapped group is empty whenever `r ≤ m`. -/
theorem mask_groups_spec (chosen : List Nat) :
    masked_index chosen = chosen.take (sub_mask_proportion chosen.length) ∧
    random_index chosen =
      (chosen.drop (sub_mask_proportion chosen.length)).take
        (sub_rand_proportion chosen.length - sub_mask_proportion chosen.length) ∧
    (sub_rand_proportion chosen.length ≤ sub_mask_proportion chosen.length →
      random_index chosen = []) :=
  ⟨rfl, rfl, fun _ => random_index_eq_nil chosen⟩

/-- Witness for `mask_groups_spec` at `chosen = [5, 6, 7]`. -/
theorem mask_groups_spec_witness :
    sub_rand_proportion ([5, 6, 7] : List Nat).length
      ≤ sub_mask_proportion ([5, 6, 7] : List Nat).length ∧
    random_index [5, 6, 7] = [] :=
  ⟨sub_rand_le_sub_mask _,
    (mask_groups_spec [5, 6, 7]).2.2 (sub_rand_le_sub_mask _)⟩

/-- C4: during masking of an utterance with valid length `L`, every time
step read or written by the zeroing and frame-swapping operations lies in
`[0, L)` (the swap loop never runs because its index slice is empty). -/
theorem touched_indices_spec (p : ℚ) (frames : List (List R))
    (perm : List Nat) (off : Nat → Nat)
    (hperm : perm.Perm (List.range (spec_len frames))) :
    ∀ t ∈ touched_indices frames.length
        (chosen_index p (spec_len frames) perm) off,
      t < spec_len frames := by
  intro t ht
  unfold touched_indices at ht
  rw [random_index_eq_nil] at ht
  simp only [List.enum_nil, List.map_nil, List.append_nil] at ht
  have h2 : t ∈ chosen_index p (spec_len frames) perm :=
    List.mem_of_mem_take ht
  have h3 : t ∈ perm := List.mem_of_mem_take h2
  have h4 : t ∈ List.range (spec_len frames) := (hperm.mem_iff).mp h3
  simpa using h4

/-- Witness for `touched_indices_spec` on the utterance `[[1], [0]]`. -/
theorem touched_indices_spec_witness :
    (List.range (spec_len [[(1:ℤ)], [0]])).Perm
      (List.range (spec_len [[(1:ℤ)], [0]])) ∧
    (∀ t ∈ touched_indices ([[(1:ℤ)], [0]] : List (List ℤ)).length
        (chosen_index (1/2) (spec_len [[(1:ℤ)], [0]])
          (List.range (spec_len [[(1:ℤ)], [0]]))) (fun _ => 1),
      t < spec_len [[(1:ℤ)], [0]]) :=
  ⟨List.Perm.refl _,
    touched_indices_spec (1/2) [[(1:ℤ)], [0]] _ _ (List.Perm.refl _)⟩

/-- C5: masking is non-destructive — every zeroed-group row of the masked
copy is an all-zero vector, and the downsampled tensor returned as the
target `y` is exactly the unmodified `spec_stacked`. -/
theorem masking_nondestructive_spec (p : ℚ) (W ld hs dr sd : Nat)
    (frames : List (List R)) (perm : List Nat) (off : Nat → Nat)
    (perms : Nat → List Nat) (offs : Nat → Nat → Nat)
    (spec : List (List (List (List R))))
    (hw : ∀ f ∈ frames, f.length = W)
    (hperm : perm.Perm (List.range (spec_len frames))) :
    (∀ i ∈ masked_index (chosen_index p (spec_len frames) perm),
      ((process_utter p ld hs perm off frames).1).getD i []
        = List.replicate W (0 : R)) ∧
    (process_MAM_data dr p sd hs perms offs spec).spec_stacked
      = down_sample_frames dr (spec.headD []) := by
  constructor
  · intro i hi
    have h2 : i ∈ chosen_index p (spec_len frames) perm :=
      List.mem_of_mem_take hi
    have h3 : i ∈ perm := List.mem_of_mem_take h2
    have h4 : i < spec_len frames := by simpa using (hperm.mem_iff).mp h3
    have h5 : i < frames.length :=
      lt_of_lt_of_le h4 (spec_len_le_length frames)
    rw [process_utter_fst]
    exact set_rows_const_getD_mem W 0 _ frames hw i hi h5
  · rfl

/-- Witness for `masking_nondestructive_spec` on a length-4 utterance. -/
theorem masking_nondestructive_spec_witness :
    (∀ f ∈ ([[1], [1], [1], [1]] : List (List ℤ)), f.length = 1) ∧
    (List.range (spec_len ([[1], [1], [1], [1]] : List (List ℤ)))).Perm
      (List.range (spec_len ([[1], [1], [1], [1]] : List (List ℤ)))) ∧
    ((∀ i ∈ masked_index (chosen_index (1/2)
        (spec_len ([[1], [1], [1], [1]] : List (List ℤ)))
        (List.range (spec_len ([[1], [1], [1], [1]] : List (List ℤ))))),
      ((process_utter (1/2) 4 8
        (List.range (spec_len ([[1], [1], [1], [1]] : List (List ℤ))))
        (fun _ => 1) ([[1], [1], [1], [1]] : List (List ℤ))).1).getD i []
        = List.replicate 1 (0 : ℤ)) ∧
    (process_MAM_data 1 (1/2) 4 8 (fun _ => []) (fun _ _ => 1)
        ([] : List (List (List (List ℤ))))).spec_stacked
      = down_sample_frames 1 (([] : List (List (List (List ℤ)))).headD [])) :=
  ⟨by decide, List.Perm.refl _,
    masking_nondestructive_spec (1/2) 1 4 8 1 4 [[1], [1], [1], [1]]
      (List.range (spec_len ([[1], [1], [1], [1]] : List (List ℤ))))
      (fun _ => 1) (fun _ => []) (fun _ _ => 1) [] (by decide)
      (List.Perm.refl _)⟩

theorem getD_map_const_zero (l : List ℝ) (n : Nat) :
    (l.map (fun _ => (0 : ℝ))).getD n 0 = 0 := by
  rw [List.getD_eq_getElem?_getD, List.getElem?_map]
  cases l[n]? <;> rfl

/-- C10: the valid length is not an input but is computed from the data as
the number of downsampled steps whose features sum to a nonzero total; a
zero-sum frame (even inside the utterance) counts as padding and reduces the
valid length, which governs the sampling population, the label-mask and
attention-mask sizes, and the positional-encoding zeroing. -/
theorem spec_len_spec (p : ℚ) (ld hs : Nat) (u : List (List R))
    (perm : List Nat) (off : Nat → Nat)
    (hperm : perm.Perm (List.range (spec_len u))) :
    spec_len u = u.countP (fun row => decide (row.sum ≠ 0)) ∧
    ((∃ row ∈ u, row.sum = 0) → spec_len u < u.length) ∧
    (∀ i ∈ chosen_index p (spec_len u) perm, i < spec_len u) ∧
    ((process_utter p ld hs perm off u).2.2.1).length = spec_len u ∧
    ((process_utter p ld hs perm off u).2.2.2).length = spec_len u ∧
    (∀ pos dim : Nat, spec_len u ≤ pos →
      (((process_utter p ld hs perm off u).2.1).getD pos []).getD dim 0
        = (0 : ℝ)) := by
  refine ⟨spec_len_eq_countP u, spec_len_lt_of_zero_row u, ?_, ?_, ?_, ?_⟩
  · intro i hi
    have h2 : i ∈ perm := List.mem_of_mem_take hi
    have h3 : i ∈ List.range (spec_len u) := (hperm.mem_iff).mp h2
    simpa using h3
  · exact process_utter_label_length p ld hs perm off u
  · rw [process_utter_attn, List.length_replicate]
  · intro pos dim hge
    rw [process_utter_pos]
    rcases Nat.lt_or_ge pos u.length with hlt | hle
    · rw [position_encoding_row_some hs u.length pos (spec_len u) hlt,
        if_pos hge, getD_map_const_zero]
    · have hout : (position_encoding hs u.length (some (spec_len u))).length
          ≤ pos := by
        rw [position_encoding_some_length]
        exact hle
      rw [List.getD_eq_default _ _ hout]
      rfl

/-- Witness for `spec_len_spec` on the utterance `[[1], [0]]`, whose second
frame sums to zero. -/
theorem spec_len_spec_witness :
    (List.range (spec_len ([[1], [0]] : List (List ℤ)))).Perm
      (List.range (spec_len ([[1], [0]] : List (List ℤ)))) ∧
    (∃ row ∈ ([[1], [0]] : List (List ℤ)), row.sum = 0) ∧
    (spec_len ([[1], [0]] : List (List ℤ))
        = ([[1], [0]] : List (List ℤ)).countP (fun row => decide (row.sum ≠ 0)) ∧
      ((∃ row ∈ ([[1], [0]] : List (List ℤ)), row.sum = 0) →
        spec_len ([[1], [0]] : List (List ℤ))
          < ([[1], [0]] : List (List ℤ)).length) ∧
      (∀ i ∈ chosen_index (1/2) (spec_len ([[1], [0]] : List (List ℤ)))
          (List.range (spec_len ([[1], [0]] : List (List ℤ)))),
        i < spec_len ([[1], [0]] : List (List ℤ))) ∧
      ((process_utter (1/2) 2 4
          (List.range (spec_len ([[1], [0]] : List (List ℤ)))) (fun _ => 1)
          ([[1], [0]] : List (List ℤ))).2.2.1).length
        = spec_len ([[1], [0]] : List (List ℤ)) ∧
      ((process_utter (1/2) 2 4
          (List.range (spec_len ([[1], [0]] : List (List ℤ)))) (fun _ => 1)
          ([[1], [0]] : List (List ℤ))).2.2.2).length
        = spec_len ([[1], [0]] : List (List ℤ)) ∧
      (∀ pos dim : Nat, spec_len ([[1], [0]] : List (List ℤ)) ≤ pos →
        (((process_utter (1/2) 2 4
            (List.range (spec_len ([[1], [0]] : List (List ℤ)))) (fun _ => 1)
            ([[1], [0]] : List (List ℤ))).2.1).getD pos []).getD dim 0
          = (0 : ℝ))) :=
  ⟨List.Perm.refl _, ⟨[0], by decide⟩,
    spec_len_spec (1/2) 2 4 [[1], [0]]
      (List.range (spec_len ([[1], [0]] : List (List ℤ)))) (fun _ => 1)
      (List.Perm.refl _)⟩

/-- C1 (amended): the batch assembly performs no padding to the batch's
maximum valid length — per utterance the masked input and positional table
keep the full downsampled length, while the label mask and attention mask
have the utterance's valid length; the time dimensions of masked input and
label mask agree exactly when the valid length equals the full downsampled
length. -/
theorem process_MAM_data_shapes (dr : Nat) (p : ℚ) (sd hs : Nat)
    (perms : Nat → List Nat) (offs : Nat → Nat → Nat)
    (spec : List (List (List (List R)))) (b : Nat)
    (hb : b < (down_sample_frames dr (spec.headD [])).length) :
    ((process_MAM_data dr p sd hs perms offs spec).spec_masked.getD b []).length
      = ((down_sample_frames dr (spec.headD [])).getD b []).length ∧
    ((process_MAM_data dr p sd hs perms offs spec).pos_enc.getD b []).length
      = ((down_sample_frames dr (spec.headD [])).getD b []).length ∧
    ((process_MAM_data dr p sd hs perms offs spec).mask_label.getD b []).length
      = spec_len ((down_sample_frames dr (spec.headD [])).getD b []) ∧
    ((process_MAM_data dr p sd hs perms offs spec).attn_mask.getD b []).length
      = spec_len ((down_sample_frames dr (spec.headD [])).getD b []) ∧
    (((process_MAM_data dr p sd hs perms offs spec).spec_masked.getD b []).length
        = ((process_MAM_data dr p sd hs perms offs spec).mask_label.getD
            b []).length
      ↔ spec_len ((down_sample_frames dr (spec.headD [])).getD b [])
        = ((down_sample_frames dr (spec.headD [])).getD b []).length) := by
  have h1 := process_MAM_spec_masked_getD dr p sd hs perms offs spec b hb
  have h2 := process_MAM_pos_enc_getD dr p sd hs perms offs spec b hb
  have h3 := process_MAM_mask_label_getD dr p sd hs perms offs spec b hb
  have h4 := process_MAM_attn_mask_getD dr p sd hs perms offs spec b hb
  refine ⟨?_, ?_, ?_, ?_, ?_⟩
  · rw [h1, process_utter_fst_length]
  · rw [h2, process_utter_pos, position_encoding_some_length]
  · rw [h3, process_utter_label_length]
  · rw [h4, process_utter_attn, List.length_replicate]
  · rw [h1, h3, process_utter_fst_length, process_utter_label_length]
    exact eq_comm

/-- Witness for `process_MAM_data_shapes` on a singleton batch. -/
theorem process_MAM_data_shapes_witness :
    0 < (down_sample_frames 1
      (([[[[(1:ℤ)], [0]]]] : List (List (List (List ℤ)))).headD [])).length ∧
    (((process_MAM_data 1 (1/2) 1 2 (fun _ => [0]) (fun _ _ => 1)
        ([[[[(1:ℤ)], [0]]]] : List (List (List (List ℤ))))).spec_masked.getD
          0 []).length
      = ((down_sample_frames 1
          (([[[[(1:ℤ)], [0]]]] : List (List (List (List ℤ)))).headD
            [])).getD 0 []).length ∧
    ((process_MAM_data 1 (1/2) 1 2 (fun _ => [0]) (fun _ _ => 1)
        ([[[[(1:ℤ)], [0]]]] : List (List (List (List ℤ))))).pos_enc.getD
          0 []).length
      = ((down_sample_frames 1
          (([[[[(1:ℤ)], [0]]]] : List (List (List (List ℤ)))).headD
            [])).getD 0 []).length ∧
    ((process_MAM_data 1 (1/2) 1 2 (fun _ => [0]) (fun _ _ => 1)
        ([[[[(1:ℤ)], [0]]]] : List (List (List (List ℤ))))).mask_label.getD
          0 []).length
      = spec_len ((down_sample_frames 1
          (([[[[(1:ℤ)], [0]]]] : List (List (List (List ℤ)))).headD
            [])).getD 0 []) ∧
    ((process_MAM_data 1 (1/2) 1 2 (fun _ => [0]) (fun _ _ => 1)
        ([[[[(1:ℤ)], [0]]]] : List (List (List (List ℤ))))).attn_mask.getD
          0 []).length
      = spec_len ((down_sample_frames 1
          (([[[[(1:ℤ)], [0]]]] : List (List (List (List ℤ)))).headD
            [])).getD 0 []) ∧
    (((process_MAM_data 1 (1/2) 1 2 (fun _ => [0]) (fun _ _ => 1)
        ([[[[(1:ℤ)], [0]]]] : List (List (List (List ℤ))))).spec_masked.getD
          0 []).length
        = ((process_MAM_data 1 (1/2) 1 2 (fun _ => [0]) (fun _ _ => 1)
          ([[[[(1:ℤ)], [0]]]] : List (List (List (List ℤ))))).mask_label.getD
            0 []).length
      ↔ spec_len ((down_sample_frames 1
          (([[[[(1:ℤ)], [0]]]] : List (List (List (List ℤ)))).headD
            [])).getD 0 [])
        = ((down_sample_frames 1
          (([[[[(1:ℤ)], [0]]]] : List (List (List (List ℤ)))).headD
            [])).getD 0 []).length)) :=
  ⟨by decide,
    process_MAM_data_shapes 1 (1/2) 1 2 (fun _ => [0]) (fun _ _ => 1)
      ([[[[(1:ℤ)], [0]]]] : List (List (List (List ℤ)))) 0 (by decide)⟩

/-- Counterexample to C1 as stated: on the batch `[[[[1], [0]]]]` (one
utterance, two raw frames, the second all-zero) with `dr = 1`, the masked
input row has length 2 while the label-mask row has length 1 — the masked
input and the label mask do not have matching shapes per utterance, and no
padding to the batch's maximum valid length takes place. -/
theorem process_MAM_data_padding_cex :
    ¬(((process_MAM_data 1 (1/2) 1 2 (fun _ => [0]) (fun _ _ => 1)
        ([[[[(1:ℤ)], [0]]]] : List (List (List (List ℤ))))).spec_masked.getD
          0 []).length
      = ((process_MAM_data 1 (1/2) 1 2 (fun _ => [0]) (fun _ _ => 1)
        ([[[[(1:ℤ)], [0]]]] : List (List (List (List ℤ))))).mask_label.getD
          0 []).length) := by
  intro h
  rw [process_MAM_spec_masked_getD 1 (1/2) 1 2 (fun _ => [0]) (fun _ _ => 1)
      ([[[[(1:ℤ)], [0]]]] : List (List (List (List ℤ)))) 0 (by decide),
    process_MAM_mask_label_getD 1 (1/2) 1 2 (fun _ => [0]) (fun _ _ => 1)
      ([[[[(1:ℤ)], [0]]]] : List (List (List (List ℤ)))) 0 (by decide),
    process_utter_fst_length, process_utter_label_length] at h
  revert h
  decide

end MaskingFacts

theorem run_batch_global_step (cfg : TrainCfg P G) (epoch step : Nat)
    (st : TrainState P G) :
    (run_batch cfg epoch step st).global_step = st.global_step +
      (if step % cfg.gradient_accumulation_steps = 0 then 1 else 0) := by
  by_cases hs : step % cfg.gradient_accumulation_steps = 0 <;>
    simp [run_batch, hs]

theorem fold_batches_global_step (cfg : TrainCfg P G) (epoch : Nat) :
    ∀ (l : List Nat) (st : TrainState P G),
      (l.foldl (fun s step => run_batch cfg epoch step s) st).global_step =
        st.global_step +
          l.countP (fun s => decide (s % cfg.gradient_accumulation_steps = 0)) := by
  intro l
  induction l with
  | nil => intro st; simp
  | cons a t ih =>
    intro st
    rw [List.foldl_cons, ih, run_batch_global_step, List.countP_cons]
    by_cases ha : a % cfg.gradient_accumulation_steps = 0 <;>
      simp [ha] <;> omega

theorem run_epoch_global_step (cfg : TrainCfg P G) (epoch : Nat)
    (st : TrainState P G) :
    (run_epoch cfg epoch st).global_step = st.global_step +
      (List.range cfg.num_batches).countP
        (fun s => decide (s % cfg.gradient_accumulation_steps = 0)) :=
  fold_batches_global_step cfg epoch (List.range cfg.num_batches) st

/-- C6: the optimizer-update block runs exactly on batches with
`step % gradient_accumulation_steps == 0` (so batch index 0 of every epoch
always triggers it), and `global_step` — initialized to 1 — increments by
exactly one per such batch and never otherwise, regardless of the NaN path
taken inside the block. -/
theorem update_gate_spec (P G : Type) (cfg : TrainCfg P G)
    (h : 0 < cfg.gradient_accumulation_steps) :
    (∀ epoch step st, step % cfg.gradient_accumulation_steps = 0 →
      (run_batch cfg epoch step st).global_step = st.global_step + 1) ∧
    (∀ epoch step st, step % cfg.gradient_accumulation_steps ≠ 0 →
      (run_batch cfg epoch step st).global_step = st.global_step) ∧
    (∀ epoch st, (run_batch cfg epoch 0 st).global_step = st.global_step + 1) ∧
    (∀ epoch st, (run_epoch cfg epoch st).global_step = st.global_step +
      (List.range cfg.num_batches).countP
        (fun s => decide (s % cfg.gradient_accumulation_steps = 0))) ∧
    (∀ p0 : P, (exec_train cfg p0).global_step = 1 + cfg.total_epoch *
      (List.range cfg.num_batches).countP
        (fun s => decide (s % cfg.gradient_accumulation_steps = 0))) := by
  refine ⟨?_, ?_, ?_, ?_, ?_⟩
  · intro epoch step st hs
    rw [run_batch_global_step, if_pos hs]
  · intro epoch step st hs
    rw [run_batch_global_step, if_neg hs, Nat.add_zero]
  · intro epoch st
    rw [run_batch_global_step, if_pos (Nat.zero_mod _)]
  · intro epoch st
    exact run_epoch_global_step cfg epoch st
  · intro p0
    unfold exec_train
    have key : ∀ (l : List Nat) (st : TrainState P G),
        (l.foldl (fun s ep => run_epoch cfg ep s) st).global_step =
          st.global_step + l.length *
            (List.range cfg.num_batches).countP
              (fun s => decide (s % cfg.gradient_accumulation_steps = 0)) := by
      intro l
      induction l with
      | nil => intro st; simp
      | cons a t ih =>
        intro st
        rw [List.foldl_cons, ih, run_epoch_global_step, List.length_cons]
        ring
    rw [key]
    simp [List.length_range]

/-- Witness for `update_gate_spec`: 2 epochs of 3 batches with
`gradient_accumulation_steps = 2`. -/
theorem update_gate_spec_witness :
    (0 < (2 : Nat)) ∧
    (∀ p0 : ℤ,
      (exec_train
        { total_epoch := 2
          num_batches := 3
          gradient_accumulation_steps := 2
          apex := false
          learning_rate := 1
          loss_of := fun _ _ => 0
          backward := fun g _ => g
          clip_grads := fun g => g
          norm_is_nan := fun _ => false
          opt_step := fun q _ => q
          zero_grad := (0 : ℤ)
          warmup_lr := fun _ => 1 } p0).global_step = 1 + 2 *
        (List.range 3).countP (fun s => decide (s % 2 = 0))) :=
  ⟨by decide,
    (update_gate_spec ℤ ℤ
      { total_epoch := 2
        num_batches := 3
        gradient_accumulation_steps := 2
        apex := false
        learning_rate := 1
        loss_of := fun _ _ => 0
        backward := fun g _ => g
        clip_grads := fun g => g
        norm_is_nan := fun _ => false
        opt_step := fun q _ => q
        zero_grad := (0 : ℤ)
        warmup_lr := fun _ => 1 } (by decide)).2.2.2.2⟩

/-- C7: on an update batch whose computed gradient norm is NaN, the
optimizer step is skipped (parameters unchanged), a warning is sent to the
verbose channel, gradients are still cleared by `zero_grad`, and
`global_step` still increments — the batch completes normally. -/
theorem nan_skip_spec (P G : Type) (cfg : TrainCfg P G) (epoch step : Nat)
    (st : TrainState P G)
    (hs : step % cfg.gradient_accumulation_steps = 0)
    (hnan : cfg.norm_is_nan (cfg.backward st.grads
      (if 1 < cfg.gradient_accumulation_steps
        then cfg.loss_of epoch step / (cfg.gradient_accumulation_steps : ℚ)
        else cfg.loss_of epoch step)) = true) :
    (run_batch cfg epoch step st).params = st.params ∧
    (run_batch cfg epoch step st).warns = st.warns + 1 ∧
    (run_batch cfg epoch step st).grads = cfg.zero_grad ∧
    (run_batch cfg epoch step st).global_step = st.global_step + 1 := by
  refine ⟨?_, ?_, ?_, ?_⟩ <;> simp [run_batch, hs, hnan]

/-- Witness for `nan_skip_spec`: a configuration whose gradient norm is
always NaN. -/
theorem nan_skip_spec_witness :
    ((0 : Nat) % 2 = 0) ∧
    ((run_batch
        ({ total_epoch := 1, num_batches := 1,
           gradient_accumulation_steps := 2, apex := false,
           learning_rate := 1, loss_of := fun _ _ => 0,
           backward := fun g _ => g, clip_grads := fun g => g,
           norm_is_nan := fun _ => true, opt_step := fun q _ => q + 1,
           zero_grad := (0 : ℤ), warmup_lr := fun _ => 1 } : TrainCfg ℤ ℤ) 0 0
        ({ global_step := 1, params := (5 : ℤ), grads := (0 : ℤ), lr := 1,
           warns := 0, logs := [] } : TrainState ℤ ℤ)).params = (5 : ℤ) ∧
      (run_batch
        ({ total_epoch := 1, num_batches := 1,
           gradient_accumulation_steps := 2, apex := false,
           learning_rate := 1, loss_of := fun _ _ => 0,
           backward := fun g _ => g, clip_grads := fun g => g,
           norm_is_nan := fun _ => true, opt_step := fun q _ => q + 1,
           zero_grad := (0 : ℤ), warmup_lr := fun _ => 1 } : TrainCfg ℤ ℤ) 0 0
        ({ global_step := 1, params := (5 : ℤ), grads := (0 : ℤ), lr := 1,
           warns := 0, logs := [] } : TrainState ℤ ℤ)).warns = 0 + 1 ∧
      (run_batch
        ({ total_epoch := 1, num_batches := 1,
           gradient_accumulation_steps := 2, apex := false,
           learning_rate := 1, loss_of := fun _ _ => 0,
           backward := fun g _ => g, clip_grads := fun g => g,
           norm_is_nan := fun _ => true, opt_step := fun q _ => q + 1,
           zero_grad := (0 : ℤ), warmup_lr := fun _ => 1 } : TrainCfg ℤ ℤ) 0 0
        ({ global_step := 1, params := (5 : ℤ), grads := (0 : ℤ), lr := 1,
           warns := 0, logs := [] } : TrainState ℤ ℤ)).grads = (0 : ℤ) ∧
      (run_batch
        ({ total_epoch := 1, num_batches := 1,
           gradient_accumulation_steps := 2, apex := false,
           learning_rate := 1, loss_of := fun _ _ => 0,
           backward := fun g _ => g, clip_grads := fun g => g,
           norm_is_nan := fun _ => true, opt_step := fun q _ => q + 1,
           zero_grad := (0 : ℤ), warmup_lr := fun _ => 1 } : TrainCfg ℤ ℤ) 0 0
        ({ global_step := 1, params := (5 : ℤ), grads := (0 : ℤ), lr := 1,
           warns := 0, logs := [] } : TrainState ℤ ℤ)).global_step = 1 + 1) :=
  ⟨by decide,
    by
      have h := nan_skip_spec ℤ ℤ
        ({ total_epoch := 1, num_batches := 1,
           gradient_accumulation_steps := 2, apex := false,
           learning_rate := 1, loss_of := fun _ _ => 0,
           backward := fun g _ => g, clip_grads := fun g => g,
           norm_is_nan := fun _ => true, opt_step := fun q _ => q + 1,
           zero_grad := (0 : ℤ), warmup_lr := fun _ => 1 } : TrainCfg ℤ ℤ) 0 0
        ({ global_step := 1, params := (5 : ℤ), grads := (0 : ℤ), lr := 1,
           warns := 0, logs := [] } : TrainState ℤ ℤ) (by decide) rfl
      exact h⟩

end Mockingjay
